import Mathlib

/-!
# go-3ff, package hclparser: structural diff of two HCL configuration trees

A shallow embedding of `src/hclparser/parse.go`.

* Go pointers and interface values that may be nil are `Option`s.
* A Go panic (nil dereference, index out of range) is the result `none` of an
  `Option`-valued function; every other result is `some _`.
* The receiver `mr *ModifiedResources` is threaded explicitly: a method that
  returns `bool` returns `Bool × ModifiedResources` here.
* Logging (`log.Printf`, the `Debug` branches) and printing (`PrintModified`,
  `PrintAttributeContext`, `printParams`) have no effect on results and are left out.
* The go-cty value library is external; its operations are a parameter (`Cty`).
-/

namespace hclparser

/-! ## External collaborators: hcl diagnostics, cty values, expressions -/

/-- Severity of an `hcl.Diagnostic`. -/
inductive DiagnosticSeverity where
  | DiagError
  | DiagWarning
deriving DecidableEq, Repr

/-- One `hcl.Diagnostic`, reduced to the fields the comparison could look at. -/
structure Diagnostic where
  Severity : DiagnosticSeverity
  Summary : String
deriving DecidableEq, Repr

/-- The type `hcl.Diagnostics`: a list of diagnostics. -/
abbrev Diagnostics := List Diagnostic

/-- Method `Diagnostics.HasErrors`: some diagnostic has error severity. -/
def HasErrors (d : Diagnostics) : Bool :=
  d.any (fun x => decide (x.Severity = DiagnosticSeverity.DiagError))

/-- The operations of the go-cty library that parse.go calls on values.
`V` is the type of values an expression can evaluate to.
`HasDynamicTypes v` is `v.Type().HasDynamicTypes()`, `RawEquals` is `v.RawEquals(w)`,
`Equals v w` is `v.Equals(w)` read through `IsKnown` and `True`: `none` when the
result is unknown, `some r` when it is known with truth value `r`.
`onNilVal` is the outcome of running the type test and comparison of
expressionEquals on two zero `cty.Value`s (variables declared with `var` and never
assigned): `none` when the library panics there, `some r` when it answers `r`. -/
structure Cty (V : Type) where
  HasDynamicTypes : V → Bool
  RawEquals : V → V → Bool
  Equals : V → V → Option Bool
  onNilVal : Option Bool

/-- A present `hclsyntax.Expression`, seen through what parse.go does with it:
a type assertion to `*hclsyntax.ObjectConsExpr` and the call `Value(nil)`, which
returns a value together with diagnostics. -/
structure Expression (V : Type) where
  IsObjectConsExpr : Bool
  Value : V × Diagnostics
deriving DecidableEq

/-- A present `*hclsyntax.Attribute`; the parser always fills in `Expr`. -/
structure Attribute (V : Type) where
  Name : String
  Expr : Expression V
deriving DecidableEq

/-- The type `hclsyntax.Attributes`, a Go `map[string]*hclsyntax.Attribute`:
an association list with distinct keys. -/
abbrev Attributes (V : Type) := AList (fun _ : String => Attribute V)

mutual
/-- The type `Body` (`hclsyntax.Body`): attributes by name and blocks in source order. -/
inductive Body (V : Type) where
  | mk (Attributes : Attributes V) (Blocks : List (Block V))
/-- The type `Block` (`hclsyntax.Block`): type, labels and nested body.
A nil `Labels` slice and an empty one are both the empty list: `len`, `range`,
indexing and `strings.Join` treat them alike. -/
inductive Block (V : Type) where
  | mk (type : String) (Labels : List String) (body : Body V)
end

/-- Field `Attributes` of a body. -/
def Body.Attributes {V : Type} : Body V → Attributes V
  | .mk a _ => a

/-- Method `GetBlocks` of a body (field `Blocks`). -/
def Body.GetBlocks {V : Type} : Body V → List (Block V)
  | .mk _ b => b

/-- Field `Type` of a block. -/
def Block.type {V : Type} : Block V → String
  | .mk t _ _ => t

/-- Field `Labels` of a block. -/
def Block.Labels {V : Type} : Block V → List String
  | .mk _ l _ => l

/-- Method `GetBody` of a block (field `Body`). -/
def Block.GetBody {V : Type} : Block V → Body V
  | .mk _ _ b => b

/-- A parsed source unit `*hcl.File`; `f.Body.(*hclsyntax.Body)` is its body. -/
structure File (V : Type) where
  Body : Body V

/-- Go `strings.Join(elems, sep)`. -/
def strings.Join (elems : List String) (sep : String) : String :=
  sep.intercalate elems

/-! ## Change Report -/

/-- Modelled from the spec: the type ModifiedResources (the Change Report) and its
methods are not in parse.go. Spec §3 and §4.5: a set of slash-joined path strings,
created empty once per run; `add(path)` is idempotent; there is no removal.
The set is kept as the list of its distinct paths in order of first insertion. -/
structure ModifiedResources where
  paths : List String
deriving DecidableEq, Repr

/-- Modelled from the spec: NewModifiedResources, absent from parse.go; §3: the
report is created empty. -/
def NewModifiedResources : ModifiedResources :=
  ⟨[]⟩

/-- Modelled from the spec: ModifiedResources.Add, absent from parse.go; §4.5:
adding a path a second time has no effect beyond the first. -/
def ModifiedResources.Add (mr : ModifiedResources) (path : String) : ModifiedResources :=
  if path ∈ mr.paths then mr else ⟨mr.paths ++ [path]⟩

/-! ## Value equality (parse.go lines 294-387) -/

/-- The type assertion `e.(*hclsyntax.ObjectConsExpr)` in its comma-ok form:
false on a nil interface value. -/
def isObjectConsExpr {V : Type} : Option (Expression V) → Bool
  | none => false
  | some e => e.IsObjectConsExpr

/-- Function expressionEquals (lines 294-345). `none` is a panic.
In the `a == nil` branch the code calls `a.Value(nil)` on the nil interface value,
and likewise `b.Value(nil)` in the `b == nil` branch. The `:=` inside those
branches declares new variables, so on the last lines `aval` and `bval` are still
zero `cty.Value`s. -/
def expressionEquals {V : Type} (c : Cty V) (a b : Option (Expression V)) : Option Bool :=
  if a.isNone && b.isNone then some true
  else if isObjectConsExpr a && !isObjectConsExpr b then some false
  else if a.isNone then none
  else if b.isNone then none
  else c.onNilVal

/-- Function attributeEquals (lines 348-387). The diagnostics returned by
`Value(nil)` are bound to `_` and never read. The variable `eq` is assigned as in
the source: first from the names, then from the values. -/
def attributeEquals {V : Type} (c : Cty V) : Option (Attribute V) → Option (Attribute V) → Bool
  | none, none => true
  | none, some _ => false
  | some _, none => false
  | some a, some b => Id.run do
    let mut eq := true
    if a.Name ≠ b.Name then
      eq := false
    let av := a.Expr.Value.1
    let mv := b.Expr.Value.1
    if c.HasDynamicTypes av then
      eq := c.RawEquals av mv
    else
      let eqval := c.Equals av mv
      match eqval with
      | none => eq := c.RawEquals av mv
      | some r => eq := r
    return eq

/-! ## Aggregation (parse.go lines 174-194) -/

/-- Function unpack. The outer loop runs over the files in order; the first inner
loop stores every attribute of the file under its name (`hclb.Attributes[k] = v`
is executed whether or not the name is already present: the test before it only
guards a log line); the second inner loop appends the blocks one by one. -/
def unpack {V : Type} (hfls : List (File V)) : Body V :=
  let acc := hfls.foldl
    (fun (hclb : Attributes V × List (Block V)) (f : File V) =>
      let hb := f.Body
      let atr := hb.Attributes.entries.foldl (fun m kv => m.insert kv.1 kv.2) hclb.1
      let blocks := hb.GetBlocks.foldl (fun bs b => bs ++ [b]) hclb.2
      (atr, blocks))
    ((∅ : Attributes V), ([] : List (Block V)))
  Body.mk acc.1 acc.2

/-! ## Structural differ (parse.go lines 196-292) -/

/-- Modelled from the spec: the result type of analyzeAttributesDiff is not in
parse.go. Spec §4.2: the set of names at which the two attribute sets are unequal. -/
structure AttributesDiff where
  names : List String
deriving DecidableEq, Repr

/-- Modelled from the spec: method HasChanges of the attribute diff, absent from
parse.go; true when at least one name differs. -/
def AttributesDiff.HasChanges (d : AttributesDiff) : Bool :=
  !d.names.isEmpty

/-- Modelled from the spec: analyzeAttributesDiff is called in parse.go but
defined outside it. Spec §4.2: over the union of both key sets, each name is
compared with the value-equality function, a missing side being absent; the
result is the set of unequal names. The spec gives the attribute diff no effect
on the Change Report, so the report is not an argument; the path and the print
parameters of the call only serve the printed output. -/
def analyzeAttributesDiff {V : Type} (c : Cty V) (oAttrs mAttrs : Attributes V) :
    AttributesDiff :=
  let names := (oAttrs.keys ++ mAttrs.keys).dedup
  ⟨names.filter (fun k => !attributeEquals c (oAttrs.lookup k) (mAttrs.lookup k))⟩

/-- The path segment `pChunk` of computeBlockDiff (lines 216-221), built from the
original block: `Type.label1.label2…` when it has labels, the bare `Type` otherwise. -/
def pChunk {V : Type} (o : Block V) : String :=
  if 0 < o.Labels.length then o.type ++ "." ++ strings.Join o.Labels "." else o.type

/-- The loop `for i, v := range o.Labels` of computeLabelsDiff (lines 272-290),
from index `i` over the remaining labels of `o`. `m.Labels[i]` is a checked index:
out of range is a panic (`none`). -/
def computeLabelsDiff.loop (mr : ModifiedResources) (mLabels : List String) (path : List String) :
    Nat → List String → Option (Bool × ModifiedResources)
  | _, [] => some (true, mr)
  | i, v :: rest =>
    match mLabels[i]? with
    | none => none
    | some w =>
      if v ≠ w then some (false, mr.Add (strings.Join path "/"))
      else computeLabelsDiff.loop mr mLabels path (i + 1) rest

/-- Method computeLabelsDiff (lines 251-292): true when the labels are equal.
On a length mismatch it returns false at once; that branch only logs. -/
def computeLabelsDiff {V : Type} (mr : ModifiedResources) (o m : Block V) (path : List String) :
    Option (Bool × ModifiedResources) :=
  if o.Labels.length ≠ m.Labels.length then some (false, mr)
  else computeLabelsDiff.loop mr m.Labels path 0 o.Labels

/-- Modelled from the spec: the surplus blocks of the longer sequence in
analyzeBlocksDiff. Spec §4.4 and scenario B: every surplus block is recorded as an
addition or removal at its own path `path/type.labels`. -/
def recordSurplus {V : Type} (mr : ModifiedResources) (path : List String) :
    List (Block V) → ModifiedResources
  | [] => mr
  | b :: bs => recordSurplus (mr.Add (strings.Join (path ++ [pChunk b]) "/")) path bs

mutual
/-- Method computeBodyDiff (lines 196-211): attribute diff first; on a change it
prints and returns false without looking at the blocks and without a call of
`Add`; otherwise the block comparison decides. -/
def computeBodyDiff {V : Type} (c : Cty V) (mr : ModifiedResources) :
    Body V → Body V → List String → Option (Bool × ModifiedResources)
  | .mk oAttrs oBlocks, .mk mAttrs mBlocks, path =>
    let atdf := analyzeAttributesDiff c oAttrs mAttrs
    if atdf.HasChanges then some (false, mr)
    else analyzeBlocksDiff c mr oBlocks mBlocks path
/-- Modelled from the spec: analyzeBlocksDiff is called in parse.go but defined
outside it. Spec §4.4 diffBlocks: blocks are paired by position; every pair is
compared with computeBlockDiff; surplus blocks on either side are recorded; the
result is true only if every pair compared equal and the lengths agree. -/
def analyzeBlocksDiff {V : Type} (c : Cty V) (mr : ModifiedResources) :
    List (Block V) → List (Block V) → List String → Option (Bool × ModifiedResources)
  | [], [], _ => some (true, mr)
  | o :: os, m :: ms, path =>
    match computeBlockDiff c mr o m path with
    | none => none
    | some (r1, mr1) =>
      match analyzeBlocksDiff c mr1 os ms path with
      | none => none
      | some (r2, mr2) => some (r1 && r2, mr2)
  | o :: os, [], path => some (false, recordSurplus mr path (o :: os))
  | [], m :: ms, path => some (false, recordSurplus mr path (m :: ms))
/-- Method computeBlockDiff (lines 214-248): true when the blocks are equal. -/
def computeBlockDiff {V : Type} (c : Cty V) (mr : ModifiedResources) :
    Block V → Block V → List String → Option (Bool × ModifiedResources)
  | .mk oType oLabels oBody, .mk mType mLabels mBody, path =>
    let p := path ++ [pChunk (Block.mk oType oLabels oBody)]
    if oType ≠ mType then some (false, mr.Add (strings.Join p "/"))
    else
      match computeLabelsDiff mr (Block.mk oType oLabels oBody) (Block.mk mType mLabels mBody) p with
      | none => none
      | some (false, mr1) => some (false, mr1)
      | some (true, mr1) => computeBodyDiff c mr1 oBody mBody p
end

/-! ## Entry point (parse.go lines 41-172) -/

/-- A Go `error` value as CompareFiles can return it: the error created with
`errors.New` at line 60, an error handed back by the operating system, or an
error diagnostic of the parser. -/
inductive Error where
  | differentFileTypes
  | os (msg : String)
  | diagnostic (d : Diagnostic)
deriving DecidableEq, Repr

/-- The type `os.FileInfo`, reduced to the two methods parse.go calls. -/
structure FileInfo where
  IsDir : Bool
  Name : String
deriving DecidableEq, Repr

/-- One `SortableFile`: an open file that getHclFiles reads and parses.
`ReadAll` is the outcome of `ioutil.ReadAll`, `ParseHCL` that of
`parser.ParseHCL` on the bytes read. -/
structure SourceFile (V : Type) where
  Name : String
  ReadAll : Except String Unit
  ParseHCL : File V × Diagnostics

/-- An open `*os.File` handed to CompareFiles, seen through the calls made on it:
`Stat` is the outcome of `Stat()`; `asSource` is the file itself as a source unit;
`Walk` is the outcome of the directory branch of getFilesSlice (lines 119-146):
`none` when the walk callback panics (it calls `info.IsDir()` on the nil
`FileInfo` that `filepath.Walk` hands over together with an lstat error),
otherwise the `.tf` files opened by the walk after `sort.Sort`, or the error of
the walk. -/
structure OsFile (V : Type) where
  Stat : Except String FileInfo
  asSource : SourceFile V
  Walk : Option (Except String (List (SourceFile V)))

/-- Function getFilesSlice (lines 105-148) for a non-nil root. `none` is a panic
inside the walk callback. -/
def getFilesSlice {V : Type} (root : OsFile V) :
    Option (Except Error (List (SourceFile V))) :=
  match root.Stat with
  | .error err => some (.error (Error.os err))
  | .ok fileInfo =>
    if !fileInfo.IsDir then some (.ok [root.asSource])
    else
      match root.Walk with
      | none => none
      | some (.error err) => some (.error (Error.os err))
      | some (.ok fl) => some (.ok fl)

/-- Method `Diagnostics.Errs`: the diagnostics of error severity, as errors. -/
def Errs (d : Diagnostics) : List Error :=
  (d.filter (fun x => decide (x.Severity = DiagnosticSeverity.DiagError))).map Error.diagnostic

/-- Function getHclFiles (lines 150-172). `none` is the end of the process:
`log.Fatalf` on a read error. On error diagnostics the first error is returned;
otherwise the parsed file is stored at the index of its source file. -/
def getHclFiles {V : Type} : List (SourceFile V) → Option (Except Error (List (File V)))
  | [] => some (.ok [])
  | sf :: others =>
    match sf.ReadAll with
    | .error _ => none
    | .ok _ =>
      match (if HasErrors sf.ParseHCL.2 then (Errs sf.ParseHCL.2).head? else none) with
      | some err => some (.error err)
      | none =>
        match getHclFiles others with
        | none => none
        | some (.error err) => some (.error err)
        | some (.ok allFiles) => some (.ok (sf.ParseHCL.1 :: allFiles))

/-- Function CompareFiles (lines 41-102). The result is the pair of Go return
values, each of which may be nil; `none` is the end of the process (a panic or
`log.Fatalf`). The boolean returned by computeBodyDiff is dropped, as in the source. -/
def CompareFiles {V : Type} (c : Cty V) (o m : OsFile V) :
    Option (Option ModifiedResources × Option Error) :=
  match o.Stat with
  | .error err => some (none, some (Error.os err))
  | .ok ofi =>
    match m.Stat with
    | .error err => some (none, some (Error.os err))
    | .ok mfi =>
      if ofi.IsDir ≠ mfi.IsDir then some (none, some Error.differentFileTypes)
      else
        let mr := NewModifiedResources
        match getFilesSlice o with
        | none => none
        | some (.error err) => some (none, some err)
        | some (.ok origFiles) =>
          match getFilesSlice m with
          | none => none
          | some (.error err) => some (none, some err)
          | some (.ok modifFiles) =>
            match getHclFiles origFiles with
            | none => none
            | some (.error err) => some (none, some err)
            | some (.ok ohf) =>
              match getHclFiles modifFiles with
              | none => none
              | some (.error err) => some (none, some err)
              | some (.ok mhf) =>
                let origCumulativeBody := unpack ohf
                let modifCumulativeBody := unpack mhf
                match computeBodyDiff c mr origCumulativeBody modifCumulativeBody [] with
                | none => none
                | some (_, mr1) => some (some mr1, none)

/-! ## A concrete interpretation of the value library, for evaluation at explicit inputs -/

/-- A small set of cty values: known strings and numbers, an unknown string, and
`cty.DynamicVal` (the unknown value of the dynamic pseudo-type, which hcl returns
from a failed evaluation). -/
inductive SampleValue where
  | str (s : String)
  | num (n : Int)
  | unknownStr
  | dynamicVal
deriving DecidableEq, Repr

/-- The cty operations on `SampleValue`: only `dynamicVal` has a dynamic type;
raw equality is structural; semantic equality is unknown as soon as one side is
unknown; the library panics on zero values. -/
def sampleCty : Cty SampleValue where
  HasDynamicTypes v :=
    match v with
    | .dynamicVal => true
    | _ => false
  RawEquals v w := decide (v = w)
  Equals v w :=
    match v, w with
    | .dynamicVal, _ => none
    | _, .dynamicVal => none
    | .unknownStr, _ => none
    | _, .unknownStr => none
    | v, w => some (decide (v = w))
  onNilVal := none

/-- A literal string expression without diagnostics. -/
def litStr (s : String) : Expression SampleValue :=
  ⟨false, (SampleValue.str s, [])⟩

/-- An expression whose evaluation fails, such as a variable reference evaluated
without a context: the value is `cty.DynamicVal` and there is an error diagnostic. -/
def failingExpr (summary : String) : Expression SampleValue :=
  ⟨false, (SampleValue.dynamicVal, [⟨DiagnosticSeverity.DiagError, summary⟩])⟩

/-- An attribute map built from a list of attributes, keyed by their names. -/
def attrsOf {V : Type} (l : List (Attribute V)) : Attributes V :=
  l.foldl (fun m a => m.insert a.Name a) ∅


/-- Scenario A, original side: the root body with `region = "us-east-1"`. -/
def regionEast : Body SampleValue :=
  Body.mk (attrsOf [⟨"region", litStr "us-east-1"⟩]) []

/-- Scenario A, modified side: the root body with `region = "us-west-2"`. -/
def regionWest : Body SampleValue :=
  Body.mk (attrsOf [⟨"region", litStr "us-west-2"⟩]) []

/-- A body without attributes and blocks. -/
def emptyBody : Body SampleValue :=
  Body.mk ∅ []

/-- An expression that evaluates without diagnostics to a value of dynamic type. -/
def dynamicExpr : Expression SampleValue :=
  ⟨false, (SampleValue.dynamicVal, [])⟩

/-- A source unit defining `x = "first"`. -/
def unitFirst : File SampleValue :=
  ⟨Body.mk (attrsOf [⟨"x", litStr "first"⟩]) [Block.mk "resource" ["a"] emptyBody]⟩

/-- A source unit defining `x = "second"`. -/
def unitSecond : File SampleValue :=
  ⟨Body.mk (attrsOf [⟨"x", litStr "second"⟩]) [Block.mk "data" [] emptyBody]⟩

/-- A regular file `main.tf` that parses to the body with `region = "us-east-1"`. -/
def regularInput : OsFile SampleValue :=
  ⟨.ok ⟨false, "main.tf"⟩, ⟨"main.tf", .ok (), (⟨regionEast⟩, [])⟩, some (.ok [])⟩

/-- A directory `conf` in which the walk finds one file, with `region = "us-west-2"`. -/
def directoryInput : OsFile SampleValue :=
  ⟨.ok ⟨true, "conf"⟩, ⟨"conf", .error "is a directory", (⟨emptyBody⟩, [])⟩,
    some (.ok [⟨"conf/main.tf", .ok (), (⟨regionWest⟩, [])⟩])⟩

/-- A second regular file, with `region = "us-west-2"`. -/
def regularInputWest : OsFile SampleValue :=
  ⟨.ok ⟨false, "west.tf"⟩, ⟨"west.tf", .ok (), (⟨regionWest⟩, [])⟩, some (.ok [])⟩

/-- A body whose only content is a block `lifecycle`. -/
def lifecycleBody : Body SampleValue :=
  Body.mk ∅ [Block.mk "lifecycle" [] emptyBody]

/-- A body whose only content is a block `provisioner`. -/
def provisionerBody : Body SampleValue :=
  Body.mk ∅ [Block.mk "provisioner" [] emptyBody]

/-- The sample value library with a chosen answer of the library on zero values. -/
def sampleCtyWith (r : Option Bool) : Cty SampleValue :=
  ⟨sampleCty.HasDynamicTypes, sampleCty.RawEquals, sampleCty.Equals, r⟩

/-! ## Lemmas on the Change Report -/

theorem mem_Add (mr : ModifiedResources) (p s : String) :
    s ∈ (mr.Add p).paths ↔ s ∈ mr.paths ∨ s = p := by
  unfold ModifiedResources.Add
  split_ifs with h
  · constructor
    · intro hs; exact Or.inl hs
    · rintro (hs | rfl)
      · exact hs
      · exact h
  · simp

theorem nodup_Add (mr : ModifiedResources) (p : String) (h : mr.paths.Nodup) :
    (mr.Add p).paths.Nodup := by
  unfold ModifiedResources.Add
  split_ifs with hp
  · exact h
  · simp only
    rw [List.nodup_append]
    refine ⟨h, List.nodup_singleton p, ?_⟩
    intro a ha hb
    simp at hb
    subst hb
    exact hp ha

theorem count_Add_self (mr : ModifiedResources) (p : String) (h : mr.paths.Nodup) :
    (mr.Add p).paths.count p = 1 :=
  List.count_eq_one_of_mem (nodup_Add mr p h) ((mem_Add mr p p).2 (Or.inr rfl))

/-! ## Lemmas on the value-equality functions -/

theorem attributeEquals_present {V : Type} (c : Cty V) (a b : Attribute V) :
    attributeEquals c (some a) (some b) =
      if c.HasDynamicTypes a.Expr.Value.1 then c.RawEquals a.Expr.Value.1 b.Expr.Value.1
      else
        match c.Equals a.Expr.Value.1 b.Expr.Value.1 with
        | none => c.RawEquals a.Expr.Value.1 b.Expr.Value.1
        | some r => r := by
  simp only [attributeEquals, Id.run]
  split_ifs <;> simp <;> split <;> simp_all

theorem attributeEquals_absent_absent {V : Type} (c : Cty V) {x y : Option (Attribute V)}
    (hx : x = none) (hy : y = none) : attributeEquals c x y = true := by
  subst hx; subst hy; rfl

/-! ## Lemmas on the differ -/

theorem hasChanges_iff {V : Type} (c : Cty V) (oAttrs mAttrs : Attributes V) :
    (analyzeAttributesDiff c oAttrs mAttrs).HasChanges = true ↔
      ∃ k, attributeEquals c (oAttrs.lookup k) (mAttrs.lookup k) = false := by
  have hnames : (analyzeAttributesDiff c oAttrs mAttrs).names =
      (oAttrs.keys ++ mAttrs.keys).dedup.filter
        (fun k => !attributeEquals c (oAttrs.lookup k) (mAttrs.lookup k)) := rfl
  have hne : (analyzeAttributesDiff c oAttrs mAttrs).HasChanges = true ↔
      ∃ k, k ∈ (analyzeAttributesDiff c oAttrs mAttrs).names := by
    unfold AttributesDiff.HasChanges
    cases (analyzeAttributesDiff c oAttrs mAttrs).names with
    | nil => simp
    | cons x xs => simp
  rw [hne, hnames]
  constructor
  · rintro ⟨k, hk⟩
    rw [List.mem_filter] at hk
    exact ⟨k, by simpa using hk.2⟩
  · rintro ⟨k, hk⟩
    refine ⟨k, ?_⟩
    rw [List.mem_filter]
    refine ⟨?_, by simpa using hk⟩
    rw [List.mem_dedup, List.mem_append]
    by_contra hcon
    push_neg at hcon
    have h1 : oAttrs.lookup k = none := AList.lookup_eq_none.2 hcon.1
    have h2 : mAttrs.lookup k = none := AList.lookup_eq_none.2 hcon.2
    rw [attributeEquals_absent_absent c h1 h2] at hk
    exact Bool.noConfusion hk

theorem computeBodyDiff_unchanged {V : Type} (c : Cty V) (mr : ModifiedResources)
    (oAttrs mAttrs : Attributes V) (oBlocks mBlocks : List (Block V)) (path : List String)
    (h : (analyzeAttributesDiff c oAttrs mAttrs).HasChanges = false) :
    computeBodyDiff c mr (Body.mk oAttrs oBlocks) (Body.mk mAttrs mBlocks) path =
      analyzeBlocksDiff c mr oBlocks mBlocks path := by
  rw [computeBodyDiff]
  simp only [h]
  simp

theorem pChunk_eq {V : Type} (o : Block V) :
    pChunk o = if o.Labels = [] then o.type else o.type ++ "." ++ strings.Join o.Labels "." := by
  unfold pChunk
  cases hl : o.Labels with
  | nil => simp
  | cons x xs => simp

theorem computeBlockDiff_type_ne {V : Type} (c : Cty V) (mr : ModifiedResources)
    (o m : Block V) (path : List String) (h : o.type ≠ m.type) :
    computeBlockDiff c mr o m path =
      some (false, mr.Add (strings.Join (path ++ [pChunk o]) "/")) := by
  cases o with
  | mk oType oLabels oBody =>
    cases m with
    | mk mType mLabels mBody =>
      have h1 : oType ≠ mType := h
      rw [computeBlockDiff]
      simp only [ne_eq, h1, not_false_eq_true, if_true]

theorem computeBlockDiff_type_eq {V : Type} (c : Cty V) (mr : ModifiedResources)
    (o m : Block V) (path : List String) (h : o.type = m.type) :
    computeBlockDiff c mr o m path =
      match computeLabelsDiff mr o m (path ++ [pChunk o]) with
      | none => none
      | some (false, mr1) => some (false, mr1)
      | some (true, mr1) => computeBodyDiff c mr1 o.GetBody m.GetBody (path ++ [pChunk o]) := by
  cases o with
  | mk oType oLabels oBody =>
    cases m with
    | mk mType mLabels mBody =>
      have h1 : oType = mType := h
      rw [computeBlockDiff]
      simp only [ne_eq, h1, not_true_eq_false, if_false, Block.GetBody]

theorem computeLabelsDiff_length_ne {V : Type} (mr : ModifiedResources) (o m : Block V)
    (path : List String) (h : o.Labels.length ≠ m.Labels.length) :
    computeLabelsDiff mr o m path = some (false, mr) := by
  unfold computeLabelsDiff
  simp [h]

/-! ## Lemmas on aggregation -/

theorem lookup_foldl_insert {V : Type} (k : String) :
    ∀ (l : List (Sigma fun _ : String => Attribute V)) (m : Attributes V), l.NodupKeys →
      (l.foldl (fun m kv => m.insert kv.1 kv.2) m).lookup k = (List.dlookup k l).or (m.lookup k)
  | [], m, _ => by simp
  | kv :: l, m, hnd => by
    obtain ⟨k1, a1⟩ := kv
    rw [List.nodupKeys_cons] at hnd
    rw [List.foldl_cons, lookup_foldl_insert k l _ hnd.2]
    by_cases hk : k = k1
    · subst hk
      have hnone : List.dlookup k l = none := List.dlookup_eq_none.2 hnd.1
      rw [hnone, List.dlookup_cons_eq]
      simp [AList.lookup_insert]
    · rw [List.dlookup_cons_ne l ⟨k1, a1⟩ hk, AList.lookup_insert_ne hk]

theorem foldl_append_single {α : Type} (l : List α) :
    ∀ acc : List α, l.foldl (fun bs b => bs ++ [b]) acc = acc ++ l := by
  induction l with
  | nil => intro acc; simp
  | cons x xs ih => intro acc; rw [List.foldl_cons, ih]; simp

theorem unpack_fold {V : Type} (k : String) :
    ∀ (hfls : List (File V)) (acc : Attributes V × List (Block V)),
      ((hfls.foldl
        (fun (hclb : Attributes V × List (Block V)) (f : File V) =>
          (f.Body.Attributes.entries.foldl (fun m kv => m.insert kv.1 kv.2) hclb.1,
           f.Body.GetBlocks.foldl (fun bs b => bs ++ [b]) hclb.2)) acc).1.lookup k =
        (hfls.reverse.findSome? (fun f => f.Body.Attributes.lookup k)).or (acc.1.lookup k)) ∧
      (hfls.foldl
        (fun (hclb : Attributes V × List (Block V)) (f : File V) =>
          (f.Body.Attributes.entries.foldl (fun m kv => m.insert kv.1 kv.2) hclb.1,
           f.Body.GetBlocks.foldl (fun bs b => bs ++ [b]) hclb.2)) acc).2 =
        acc.2 ++ (hfls.map (fun f => f.Body.GetBlocks)).flatten
  | [], acc => by simp
  | f :: hfls, acc => by
    obtain ⟨ih1, ih2⟩ := unpack_fold k hfls
      (f.Body.Attributes.entries.foldl (fun m kv => m.insert kv.1 kv.2) acc.1,
       f.Body.GetBlocks.foldl (fun bs b => bs ++ [b]) acc.2)
    constructor
    · rw [List.foldl_cons, ih1]
      simp only
      rw [lookup_foldl_insert k _ _ f.Body.Attributes.nodupKeys, List.reverse_cons,
        List.findSome?_append]
      have : f.Body.Attributes.lookup k = List.dlookup k f.Body.Attributes.entries := rfl
      cases h1 : List.findSome? (fun f => AList.lookup k f.Body.Attributes) hfls.reverse with
      | some x => simp
      | none =>
        cases h2 : List.dlookup k f.Body.Attributes.entries <;>
          simp [List.findSome?_cons, this, h2]
    · rw [List.foldl_cons, ih2]
      simp only
      rw [foldl_append_single]
      simp

theorem unpack_lookup {V : Type} (hfls : List (File V)) (k : String) :
    (unpack hfls).Attributes.lookup k =
      hfls.reverse.findSome? (fun f => f.Body.Attributes.lookup k) := by
  have h := (unpack_fold k hfls ((∅ : Attributes V), ([] : List (Block V)))).1
  exact h.trans (by simp)

theorem unpack_blocks {V : Type} (hfls : List (File V)) :
    (unpack hfls).GetBlocks = (hfls.map (fun f => f.Body.GetBlocks)).flatten := by
  have h := (unpack_fold "" hfls ((∅ : Attributes V), ([] : List (Block V)))).2
  exact h.trans (by simp)

/-! ## Lemmas for reflexivity -/

theorem attributeEquals_self {V : Type} (c : Cty V)
    (hraw : ∀ v, c.RawEquals v v = true) (heq : ∀ v, c.Equals v v ≠ some false)
    (x : Option (Attribute V)) : attributeEquals c x x = true := by
  cases x with
  | none => rfl
  | some a =>
    rw [attributeEquals_present]
    split_ifs
    · exact hraw _
    · cases h : c.Equals a.Expr.Value.1 a.Expr.Value.1 with
      | none => exact hraw _
      | some r =>
        cases r with
        | true => rfl
        | false => exact absurd h (heq _)

theorem analyzeAttributesDiff_self {V : Type} (c : Cty V)
    (hraw : ∀ v, c.RawEquals v v = true) (heq : ∀ v, c.Equals v v ≠ some false)
    (attrs : Attributes V) :
    (analyzeAttributesDiff c attrs attrs).HasChanges = false := by
  cases hc : (analyzeAttributesDiff c attrs attrs).HasChanges with
  | false => rfl
  | true =>
    obtain ⟨k, hk⟩ := (hasChanges_iff c attrs attrs).1 hc
    rw [attributeEquals_self c hraw heq] at hk
    exact Bool.noConfusion hk

theorem computeLabelsDiff_loop_self (mr : ModifiedResources) (path : List String) :
    ∀ (rest pre : List String),
      computeLabelsDiff.loop mr (pre ++ rest) path pre.length rest = some (true, mr)
  | [], _ => by rw [computeLabelsDiff.loop]
  | v :: rest, pre => by
    have hidx : (pre ++ v :: rest)[pre.length]? = some v := by
      rw [List.getElem?_append_right (Nat.le_refl _)]
      simp
    have ih := computeLabelsDiff_loop_self mr path rest (pre ++ [v])
    rw [computeLabelsDiff.loop, hidx]
    simp only [ne_eq, not_true_eq_false, if_false]
    simpa using ih

theorem computeLabelsDiff_self {V : Type} (mr : ModifiedResources) (b : Block V)
    (path : List String) : computeLabelsDiff mr b b path = some (true, mr) := by
  unfold computeLabelsDiff
  simp only [ne_eq, not_true_eq_false, if_false]
  exact computeLabelsDiff_loop_self mr path b.Labels []

mutual
theorem computeBodyDiff_self {V : Type} (c : Cty V)
    (hraw : ∀ v, c.RawEquals v v = true) (heq : ∀ v, c.Equals v v ≠ some false) :
    ∀ (t : Body V) (mr : ModifiedResources) (path : List String),
      computeBodyDiff c mr t t path = some (true, mr)
  | .mk attrs blocks, mr, path => by
    rw [computeBodyDiff_unchanged c mr attrs attrs blocks blocks path
      (analyzeAttributesDiff_self c hraw heq attrs)]
    exact analyzeBlocksDiff_self c hraw heq blocks mr path
theorem analyzeBlocksDiff_self {V : Type} (c : Cty V)
    (hraw : ∀ v, c.RawEquals v v = true) (heq : ∀ v, c.Equals v v ≠ some false) :
    ∀ (bs : List (Block V)) (mr : ModifiedResources) (path : List String),
      analyzeBlocksDiff c mr bs bs path = some (true, mr)
  | [], mr, path => by rw [analyzeBlocksDiff]
  | b :: bs, mr, path => by
    rw [analyzeBlocksDiff, computeBlockDiff_self c hraw heq b mr path]
    simp only
    rw [analyzeBlocksDiff_self c hraw heq bs mr path]
    rfl
theorem computeBlockDiff_self {V : Type} (c : Cty V)
    (hraw : ∀ v, c.RawEquals v v = true) (heq : ∀ v, c.Equals v v ≠ some false) :
    ∀ (b : Block V) (mr : ModifiedResources) (path : List String),
      computeBlockDiff c mr b b path = some (true, mr)
  | .mk t l body, mr, path => by
    rw [computeBlockDiff_type_eq c mr _ _ path rfl, computeLabelsDiff_self]
    simp only [Block.GetBody]
    exact computeBodyDiff_self c hraw heq body mr _
end


/-! ## Claims on the differ -/

/-- C2: type mismatch precedence. When the types of `o` and `m` differ,
computeBlockDiff returns false and the report is the old one with the single
string `join(path ++ [seg], "/")` added, where `seg` is built from the original
block (its type, followed by its dot-joined labels when it has any); the outcome
is the same whatever the labels of `m` and the bodies of both blocks are. -/
theorem computeBlockDiff_type_mismatch {V : Type} (c : Cty V) (mr : ModifiedResources)
    (o m : Block V) (path : List String) (h : o.type ≠ m.type) :
    computeBlockDiff c mr o m path =
      some (false, mr.Add (strings.Join (path ++ [pChunk o]) "/")) ∧
    pChunk o = (if o.Labels = [] then o.type else o.type ++ "." ++ strings.Join o.Labels ".") ∧
    (∀ s, s ∈ (mr.Add (strings.Join (path ++ [pChunk o]) "/")).paths ↔
      s ∈ mr.paths ∨ s = strings.Join (path ++ [pChunk o]) "/") ∧
    (∀ (oBody mBody : Body V) (mLabels : List String),
      computeBlockDiff c mr (Block.mk o.type o.Labels oBody) (Block.mk m.type mLabels mBody) path =
        some (false, mr.Add (strings.Join (path ++ [pChunk o]) "/"))) := by
  refine ⟨computeBlockDiff_type_ne c mr o m path h, pChunk_eq o, fun s => mem_Add mr _ s, ?_⟩
  intro oBody mBody mLabels
  have := computeBlockDiff_type_ne c mr (Block.mk o.type o.Labels oBody)
    (Block.mk m.type mLabels mBody) path h
  simpa [pChunk, Block.type, Block.Labels] using this

/-- C2 at a concrete pair: `resource "aws_instance" "web"` against `data "aws_instance" "web"`
under the path `module.m`. -/
theorem computeBlockDiff_type_mismatch_witness :
    computeBlockDiff sampleCty NewModifiedResources
      (Block.mk "resource" ["aws_instance", "web"] emptyBody)
      (Block.mk "data" ["aws_instance", "web"] regionWest) ["module.m"] =
      some (false, ⟨["module.m/resource.aws_instance.web"]⟩) :=
  (computeBlockDiff_type_mismatch sampleCty NewModifiedResources
      (Block.mk "resource" ["aws_instance", "web"] emptyBody)
      (Block.mk "data" ["aws_instance", "web"] regionWest) ["module.m"] (by decide)).1

/-- C3 at the failing input: the blocks `resource "a" "b"` and `resource "a"` have
equal type and label lists of different length; computeBlockDiff returns false,
yet the report is still empty afterwards, while a label that differs in value at
equal length is recorded. -/
theorem computeBlockDiff_label_count_mismatch_unrecorded :
    computeBlockDiff sampleCty NewModifiedResources
      (Block.mk "resource" ["a", "b"] emptyBody) (Block.mk "resource" ["a"] emptyBody) [] =
      some (false, ⟨[]⟩) ∧
    computeBlockDiff sampleCty NewModifiedResources
      (Block.mk "resource" ["a", "b"] emptyBody) (Block.mk "resource" ["a", "c"] emptyBody) [] =
      some (false, ⟨["resource.a.b"]⟩) := by
  decide

/-! ## Claims on aggregation -/

/-- C4 fails as stated: two units both define `x`; the earliest of them holds
the value "first", but the aggregate stores the attribute of the later unit. -/
theorem unpack_first_wins_counterexample :
    [unitFirst, unitSecond].findSome? (fun f => f.Body.Attributes.lookup "x") =
      some ⟨"x", litStr "first"⟩ ∧
    (unpack [unitFirst, unitSecond]).Attributes.lookup "x" = some ⟨"x", litStr "second"⟩ ∧
    (unpack [unitFirst, unitSecond]).Attributes.lookup "x" ≠
      [unitFirst, unitSecond].findSome? (fun f => f.Body.Attributes.lookup "x") := by
  decide

/-- C4 as amended: the aggregate defines exactly the names defined by at least one
unit, and for each such name it stores the attribute of the latest unit in the
list that defines it (a later unit defining the same name overwrites the entry). -/
theorem unpack_last_wins {V : Type} (hfls : List (File V)) (k : String) :
    (k ∈ (unpack hfls).Attributes ↔ ∃ f ∈ hfls, k ∈ f.Body.Attributes) ∧
    (∀ (pre post : List (File V)) (f : File V) (a : Attribute V),
      hfls = pre ++ f :: post →
      f.Body.Attributes.lookup k = some a →
      (∀ g ∈ post, g.Body.Attributes.lookup k = none) →
      (unpack hfls).Attributes.lookup k = some a) := by
  constructor
  · rw [← AList.lookup_isSome, unpack_lookup, List.findSome?_isSome_iff]
    constructor
    · rintro ⟨f, hf, hs⟩
      exact ⟨f, List.mem_reverse.1 hf, AList.lookup_isSome.1 hs⟩
    · rintro ⟨f, hf, hs⟩
      exact ⟨f, List.mem_reverse.2 hf, AList.lookup_isSome.2 hs⟩
  · intro pre post f a hsplit hfa hpost
    rw [unpack_lookup, hsplit, List.reverse_append, List.reverse_cons, List.append_assoc,
      List.findSome?_append]
    have hnone : List.findSome? (fun f => f.Body.Attributes.lookup k) post.reverse = none := by
      rw [List.findSome?_eq_none_iff]
      intro g hg
      exact hpost g (List.mem_reverse.1 hg)
    rw [hnone]
    simp [List.findSome?_cons, hfa]

/-- C4 as amended, at two units that both define `x`: the name is defined in the
aggregate, with the attribute of the second unit. -/
theorem unpack_last_wins_witness :
    "x" ∈ (unpack [unitFirst, unitSecond]).Attributes ∧
    (unpack [unitFirst, unitSecond]).Attributes.lookup "x" = some ⟨"x", litStr "second"⟩ :=
  ⟨((unpack_last_wins [unitFirst, unitSecond] "x").1).2 ⟨unitFirst, by simp, by decide⟩,
   (unpack_last_wins [unitFirst, unitSecond] "x").2 [unitFirst] [] unitSecond
     ⟨"x", litStr "second"⟩ rfl (by decide) (by simp)⟩

/-- C5: block concatenation. The block sequence of the aggregate is the
concatenation, in unit order, of the block sequences of the units; its length is the
sum of the block counts of the units; it is empty for the empty list of units. -/
theorem unpack_blocks_concat {V : Type} (hfls : List (File V)) :
    (unpack hfls).GetBlocks = (hfls.map (fun f => f.Body.GetBlocks)).flatten ∧
    (unpack hfls).GetBlocks.length = (hfls.map (fun f => f.Body.GetBlocks.length)).sum ∧
    (unpack ([] : List (File V))).GetBlocks = [] := by
  refine ⟨unpack_blocks hfls, ?_, ?_⟩
  · rw [unpack_blocks, List.length_flatten, List.map_map]
    rfl
  · rw [unpack_blocks]
    rfl


/-! ## Claims on value equality -/

/-- C6: value-equality rule of attributeEquals. For two present attributes whose
expressions evaluate to `av` and `mv`, the result is `RawEquals(av, mv)` when the
type of `av` contains a dynamic type; otherwise it is the truth of `av.Equals(mv)`
when that is known and `RawEquals(av, mv)` when it is unknown. In particular two
raw-identical values of dynamic type are judged equal. -/
theorem attributeEquals_value_rule {V : Type} (c : Cty V) (a b : Attribute V) :
    attributeEquals c (some a) (some b) =
      (if c.HasDynamicTypes a.Expr.Value.1 then c.RawEquals a.Expr.Value.1 b.Expr.Value.1
       else
        match c.Equals a.Expr.Value.1 b.Expr.Value.1 with
        | none => c.RawEquals a.Expr.Value.1 b.Expr.Value.1
        | some r => r) ∧
    (c.HasDynamicTypes a.Expr.Value.1 = true → c.RawEquals a.Expr.Value.1 b.Expr.Value.1 = true →
      attributeEquals c (some a) (some b) = true) := by
  refine ⟨attributeEquals_present c a b, ?_⟩
  intro hd hr
  rw [attributeEquals_present, if_pos hd, hr]

/-- C6 at two attributes whose value is `cty.DynamicVal`: semantic equality is
unknown there, raw equality holds, and the attributes are judged equal. -/
theorem attributeEquals_value_rule_witness :
    sampleCty.Equals SampleValue.dynamicVal SampleValue.dynamicVal = none ∧
    attributeEquals sampleCty (some ⟨"ami", dynamicExpr⟩) (some ⟨"ami", dynamicExpr⟩) = true :=
  ⟨by decide,
   (attributeEquals_value_rule sampleCty ⟨"ami", dynamicExpr⟩ ⟨"ami", dynamicExpr⟩).2
     (by decide) (by decide)⟩

/-- C7 fails as stated: forcing either expression reports an error diagnostic
(both are variable references evaluated without a context, which yield
`cty.DynamicVal`), and attributeEquals returns true. The verdict follows the
values alone: the same failing expression against a literal gives false, and so
does the literal "a" against the literal "b" without any error. -/
theorem attributeEquals_evaluation_error_counterexample :
    HasErrors (failingExpr "Variables not allowed: var.a").Value.2 = true ∧
    HasErrors (failingExpr "Variables not allowed: var.b").Value.2 = true ∧
    attributeEquals sampleCty (some ⟨"zone", failingExpr "Variables not allowed: var.a"⟩)
      (some ⟨"zone", failingExpr "Variables not allowed: var.b"⟩) = true ∧
    attributeEquals sampleCty (some ⟨"zone", failingExpr "Variables not allowed: var.a"⟩)
      (some ⟨"zone", litStr "a"⟩) = false ∧
    attributeEquals sampleCty (some ⟨"zone", litStr "a"⟩) (some ⟨"zone", litStr "b"⟩) = false := by
  decide

/-- C7 as amended: for two present attributes attributeEquals returns a verdict
whatever diagnostics forcing the expressions reported, errors included, and the
verdict is the value-equality rule on the two values that forcing returned:
`RawEquals` when the type of the first value contains a dynamic type, otherwise
the truth of `Equals` when that is known and `RawEquals` when it is unknown. So
it is the verdict for the same two values without any diagnostics. -/
theorem attributeEquals_ignores_diagnostics {V : Type} (c : Cty V) (na nb : String)
    (oa ob : Bool) (av mv : V) (da db : Diagnostics) :
    attributeEquals c (some ⟨na, ⟨oa, (av, da)⟩⟩) (some ⟨nb, ⟨ob, (mv, db)⟩⟩) =
      (if c.HasDynamicTypes av then c.RawEquals av mv
       else
        match c.Equals av mv with
        | none => c.RawEquals av mv
        | some r => r) ∧
    attributeEquals c (some ⟨na, ⟨oa, (av, da)⟩⟩) (some ⟨nb, ⟨ob, (mv, db)⟩⟩) =
      attributeEquals c (some ⟨na, ⟨oa, (av, [])⟩⟩) (some ⟨nb, ⟨ob, (mv, [])⟩⟩) := by
  refine ⟨attributeEquals_present c _ _, ?_⟩
  rw [attributeEquals_present, attributeEquals_present]

/-- C8 at the failing input: with both expressions absent expressionEquals returns
true, but with `a` absent and `b` present it reaches `a.Value(nil)` on the nil
interface value and panics instead of returning false; so does the symmetric case
for an `a` that is not an object constructor. -/
theorem expressionEquals_absent_operand {V : Type} (c : Cty V) (b : Expression V) :
    expressionEquals c none none = some true ∧
    expressionEquals c none (some b) = none ∧
    expressionEquals c (some ⟨false, b.Value⟩) none = none := by
  refine ⟨rfl, ?_, ?_⟩
  · simp [expressionEquals, isObjectConsExpr]
  · simp [expressionEquals, isObjectConsExpr]

/-- C9: absent cases of attributeEquals. Two absent attributes are equal; an absent
attribute and a present one are unequal in either order, whatever the present
attribute is. -/
theorem attributeEquals_absent {V : Type} (c : Cty V) (x : Attribute V) :
    attributeEquals c none none = true ∧
    attributeEquals c none (some x) = false ∧
    attributeEquals c (some x) none = false :=
  ⟨rfl, rfl, rfl⟩

/-! ## Reflexivity -/

theorem subset_Add (mr : ModifiedResources) (p : String) : mr.paths ⊆ (mr.Add p).paths :=
  fun s hs => (mem_Add mr p s).2 (Or.inl hs)

theorem length_Add_le (mr : ModifiedResources) (p : String) :
    (mr.Add p).paths.length ≤ mr.paths.length + 1 := by
  unfold ModifiedResources.Add
  split_ifs <;> simp

theorem computeLabelsDiff_loop_spec (mr : ModifiedResources) (path : List String) :
    ∀ (rest pre mrest : List String), mrest.length = rest.length →
      ∃ (r : Bool) (mr1 : ModifiedResources),
        computeLabelsDiff.loop mr (pre ++ mrest) path pre.length rest = some (r, mr1) ∧
        (r = true ↔ rest = mrest) ∧ (r = true → mr1 = mr) ∧
        (mr1 = mr ∨ mr1 = mr.Add (strings.Join path "/"))
  | [], pre, mrest, h => by
    have hm : mrest = [] := List.length_eq_zero.1 h
    refine ⟨true, mr, ?_, ?_, fun _ => rfl, Or.inl rfl⟩
    · rw [computeLabelsDiff.loop]
    · simp [hm]
  | v :: rest, pre, mrest, h => by
    cases mrest with
    | nil => simp at h
    | cons w ms =>
      have hlen : ms.length = rest.length := by simpa using h
      have hidx : (pre ++ w :: ms)[pre.length]? = some w := by
        rw [List.getElem?_append_right (Nat.le_refl _)]
        simp
      rw [computeLabelsDiff.loop, hidx]
      by_cases hvw : v = w
      · subst hvw
        obtain ⟨r, mr1, h1, h2, h3, h4⟩ :=
          computeLabelsDiff_loop_spec mr path rest (pre ++ [v]) ms hlen
        refine ⟨r, mr1, ?_, ?_, h3, h4⟩
        · simp only [ne_eq, not_true_eq_false, if_false]
          simpa using h1
        · rw [h2]
          simp
      · refine ⟨false, mr.Add (strings.Join path "/"), ?_, ?_, ?_, Or.inr rfl⟩
        · simp only [ne_eq, hvw, not_false_eq_true, if_true]
        · simp [hvw]
        · intro hf
          exact Bool.noConfusion hf

theorem computeLabelsDiff_spec {V : Type} (mr : ModifiedResources) (o m : Block V)
    (path : List String) :
    ∃ (r : Bool) (mr1 : ModifiedResources),
      computeLabelsDiff mr o m path = some (r, mr1) ∧
      (r = true ↔ o.Labels = m.Labels) ∧ (r = true → mr1 = mr) ∧
      (mr1 = mr ∨ mr1 = mr.Add (strings.Join path "/")) := by
  unfold computeLabelsDiff
  by_cases hlen : o.Labels.length = m.Labels.length
  · simp only [ne_eq, hlen, not_true_eq_false, if_false]
    have h := computeLabelsDiff_loop_spec mr path o.Labels [] m.Labels hlen.symm
    simpa using h
  · refine ⟨false, mr, ?_, ?_, ?_, Or.inl rfl⟩
    · simp only [ne_eq, hlen, not_false_eq_true, if_true]
    · constructor
      · intro hf
        exact Bool.noConfusion hf
      · intro he
        exact absurd (congrArg List.length he) hlen
    · intro hf
      exact Bool.noConfusion hf

theorem computeLabelsDiff_labels_eq {V : Type} (mr : ModifiedResources) (o m : Block V)
    (path : List String) (h : o.Labels = m.Labels) :
    computeLabelsDiff mr o m path = some (true, mr) := by
  obtain ⟨r, mr1, h1, h2, h3, _⟩ := computeLabelsDiff_spec mr o m path
  have hr : r = true := h2.2 h
  rw [h1, hr, h3 hr]

theorem subset_recordSurplus {V : Type} (path : List String) :
    ∀ (bs : List (Block V)) (mr : ModifiedResources), mr.paths ⊆ (recordSurplus mr path bs).paths
  | [], mr => by
    rw [recordSurplus]
    exact fun _ h => h
  | b :: bs, mr => by
    rw [recordSurplus]
    exact fun s hs => subset_recordSurplus path bs _ (subset_Add mr _ hs)

mutual
theorem computeBodyDiff_grows {V : Type} (c : Cty V) :
    ∀ (ob mb : Body V) (mr : ModifiedResources) (path : List String),
      ∃ (r : Bool) (mr1 : ModifiedResources),
        computeBodyDiff c mr ob mb path = some (r, mr1) ∧ mr.paths ⊆ mr1.paths
  | .mk oAttrs oBlocks, .mk mAttrs mBlocks, mr, path => by
    rw [computeBodyDiff]
    split_ifs
    · exact ⟨false, mr, rfl, fun _ h => h⟩
    · exact analyzeBlocksDiff_grows c oBlocks mBlocks mr path
theorem analyzeBlocksDiff_grows {V : Type} (c : Cty V) :
    ∀ (obs mbs : List (Block V)) (mr : ModifiedResources) (path : List String),
      ∃ (r : Bool) (mr1 : ModifiedResources),
        analyzeBlocksDiff c mr obs mbs path = some (r, mr1) ∧ mr.paths ⊆ mr1.paths
  | [], [], mr, path => by
    rw [analyzeBlocksDiff]
    exact ⟨true, mr, rfl, fun _ h => h⟩
  | o :: os, m :: ms, mr, path => by
    obtain ⟨r1, mr1, h1, hs1⟩ := computeBlockDiff_grows c o m mr path
    obtain ⟨r2, mr2, h2, hs2⟩ := analyzeBlocksDiff_grows c os ms mr1 path
    rw [analyzeBlocksDiff, h1]
    simp only
    rw [h2]
    exact ⟨r1 && r2, mr2, rfl, fun s hs => hs2 (hs1 hs)⟩
  | o :: os, [], mr, path => by
    rw [analyzeBlocksDiff]
    exact ⟨false, _, rfl, subset_recordSurplus path _ mr⟩
  | [], m :: ms, mr, path => by
    rw [analyzeBlocksDiff]
    exact ⟨false, _, rfl, subset_recordSurplus path _ mr⟩
theorem computeBlockDiff_grows {V : Type} (c : Cty V) :
    ∀ (o m : Block V) (mr : ModifiedResources) (path : List String),
      ∃ (r : Bool) (mr1 : ModifiedResources),
        computeBlockDiff c mr o m path = some (r, mr1) ∧ mr.paths ⊆ mr1.paths
  | .mk oType oLabels oBody, .mk mType mLabels mBody, mr, path => by
    by_cases ht : oType = mType
    · obtain ⟨r, mr1, h1, _, _, h4⟩ := computeLabelsDiff_spec mr
        (Block.mk oType oLabels oBody) (Block.mk mType mLabels mBody)
        (path ++ [pChunk (Block.mk oType oLabels oBody)])
      have hs1 : mr.paths ⊆ mr1.paths := by
        rcases h4 with h4 | h4
        · rw [h4]; exact fun _ h => h
        · rw [h4]; exact subset_Add mr _
      rw [computeBlockDiff_type_eq c mr (Block.mk oType oLabels oBody) (Block.mk mType mLabels mBody)
        path ht, h1]
      cases r with
      | false => exact ⟨false, mr1, rfl, hs1⟩
      | true =>
        simp only [Block.GetBody]
        obtain ⟨r2, mr2, h2, hs2⟩ := computeBodyDiff_grows c oBody mBody mr1
          (path ++ [pChunk (Block.mk oType oLabels oBody)])
        exact ⟨r2, mr2, h2, fun s hs => hs2 (hs1 hs)⟩
    · rw [computeBlockDiff_type_ne c mr (Block.mk oType oLabels oBody) (Block.mk mType mLabels mBody)
        path ht]
      exact ⟨false, _, rfl, subset_Add mr _⟩
end

/-! ## Lemmas on the entry point -/

theorem getFilesSlice_error {V : Type} (root : OsFile V) (e : Error)
    (h : getFilesSlice root = some (.error e)) : e ≠ Error.differentFileTypes := by
  unfold getFilesSlice at h
  intro he
  subst he
  split at h
  · simp at h
  · split_ifs at h
    · simp at h
    · split at h <;> simp at h

theorem getHclFiles_error {V : Type} :
    ∀ (l : List (SourceFile V)) (e : Error),
      getHclFiles l = some (.error e) → e ≠ Error.differentFileTypes
  | [], e, h => by
    rw [getHclFiles] at h
    simp at h
  | sf :: others, e, h => by
    intro he
    subst he
    rw [getHclFiles] at h
    split at h
    · simp at h
    · split at h
      · rename_i err herr
        have h1 : err = Error.differentFileTypes := by simpa using h
        subst h1
        split_ifs at herr
        have hmem : Error.differentFileTypes ∈ Errs sf.ParseHCL.2 := List.mem_of_mem_head? herr
        unfold Errs at hmem
        simp at hmem
      · split at h
        · simp at h
        · rename_i err herr
          have h1 : err = Error.differentFileTypes := by simpa using h
          subst h1
          exact getHclFiles_error others _ herr rfl
        · simp at h

theorem CompareFiles_same_kind {V : Type} (c : Cty V) (o m : OsFile V) (ofi mfi : FileInfo)
    (ho : o.Stat = .ok ofi) (hm : m.Stat = .ok mfi) (hk : ofi.IsDir = mfi.IsDir)
    (r : Option ModifiedResources) :
    CompareFiles c o m ≠ some (r, some Error.differentFileTypes) := by
  intro h
  unfold CompareFiles at h
  rw [ho, hm] at h
  simp only [ne_eq, hk, not_true_eq_false, if_false] at h
  split at h
  · simp at h
  · rename_i err herr
    have h1 : err = Error.differentFileTypes := by simp at h; exact h.2
    exact getFilesSlice_error o err herr h1
  · split at h
    · simp at h
    · rename_i err herr
      have h1 : err = Error.differentFileTypes := by simp at h; exact h.2
      exact getFilesSlice_error m err herr h1
    · split at h
      · simp at h
      · rename_i err herr
        have h1 : err = Error.differentFileTypes := by simp at h; exact h.2
        exact getHclFiles_error _ err herr h1
      · split at h
        · simp at h
        · rename_i err herr
          have h1 : err = Error.differentFileTypes := by simp at h; exact h.2
          exact getHclFiles_error _ err herr h1
        · split at h <;> simp at h

theorem CompareFiles_different_kind {V : Type} (c : Cty V) (o m : OsFile V) (ofi mfi : FileInfo)
    (ho : o.Stat = .ok ofi) (hm : m.Stat = .ok mfi) (hk : ofi.IsDir ≠ mfi.IsDir) :
    CompareFiles c o m = some (none, some Error.differentFileTypes) := by
  unfold CompareFiles
  rw [ho, hm]
  simp only [ne_eq, hk, not_false_eq_true, if_true]

/-! ## Claims on the entry point, the report and the leaf comparisons -/

/-- C11: input kind mismatch is an error. When both inputs stat successfully and
exactly one of them is a directory, CompareFiles returns a nil report and the
error created for that case, and the outcome is the same whatever the contents
of the two inputs are (nothing is listed, read, parsed, aggregated or compared);
when both are of the same kind that error is never returned. -/
theorem CompareFiles_kind_mismatch {V : Type} (c : Cty V) (o m : OsFile V) (ofi mfi : FileInfo)
    (ho : o.Stat = .ok ofi) (hm : m.Stat = .ok mfi) :
    (ofi.IsDir ≠ mfi.IsDir →
      CompareFiles c o m = some (none, some Error.differentFileTypes) ∧
      ∀ (os ms : SourceFile V) (ow mw : Option (Except String (List (SourceFile V)))),
        CompareFiles c ⟨o.Stat, os, ow⟩ ⟨m.Stat, ms, mw⟩ =
          some (none, some Error.differentFileTypes)) ∧
    (ofi.IsDir = mfi.IsDir →
      ∀ r : Option ModifiedResources,
        CompareFiles c o m ≠ some (r, some Error.differentFileTypes)) := by
  constructor
  · intro hk
    refine ⟨CompareFiles_different_kind c o m ofi mfi ho hm hk, ?_⟩
    intro os ms ow mw
    exact CompareFiles_different_kind c ⟨o.Stat, os, ow⟩ ⟨m.Stat, ms, mw⟩ ofi mfi ho hm hk
  · intro hk r
    exact CompareFiles_same_kind c o m ofi mfi ho hm hk r

/-- C11 at a regular file against a directory (the error, no report) and at two
regular files (no error, a report). -/
theorem CompareFiles_kind_mismatch_witness :
    CompareFiles sampleCty regularInput directoryInput =
      some (none, some Error.differentFileTypes) ∧
    CompareFiles sampleCty regularInput regularInputWest = some (some ⟨[]⟩, none) ∧
    CompareFiles sampleCty regularInput regularInputWest ≠
      some (none, some Error.differentFileTypes) :=
  ⟨((CompareFiles_kind_mismatch sampleCty regularInput directoryInput ⟨false, "main.tf"⟩
      ⟨true, "conf"⟩ rfl rfl).1 (by decide)).1,
   by decide,
   (CompareFiles_kind_mismatch sampleCty regularInput regularInputWest ⟨false, "main.tf"⟩
      ⟨false, "west.tf"⟩ rfl rfl).2 rfl none⟩

/-- C12: the Change Report only grows. Every call of computeBlockDiff and of
computeLabelsDiff returns, and every path in the report before the call is in
the report after it; computeLabelsDiff leaves the report as it was or adds the
one joined path, so the report grows by at most one entry. -/
theorem report_only_grows {V : Type} (c : Cty V) (mr : ModifiedResources) (o m : Block V)
    (path : List String) :
    (∃ (r : Bool) (mr1 : ModifiedResources),
      computeBlockDiff c mr o m path = some (r, mr1) ∧ mr.paths ⊆ mr1.paths) ∧
    (∃ (r : Bool) (mr1 : ModifiedResources),
      computeLabelsDiff mr o m path = some (r, mr1) ∧ mr.paths ⊆ mr1.paths ∧
      (mr1 = mr ∨ mr1 = mr.Add (strings.Join path "/")) ∧
      mr1.paths.length ≤ mr.paths.length + 1) := by
  refine ⟨computeBlockDiff_grows c o m mr path, ?_⟩
  obtain ⟨r, mr1, h1, _, _, h4⟩ := computeLabelsDiff_spec mr o m path
  refine ⟨r, mr1, h1, ?_, h4, ?_⟩
  · rcases h4 with h4 | h4
    · rw [h4]; exact fun _ h => h
    · rw [h4]; exact subset_Add mr _
  · rcases h4 with h4 | h4
    · rw [h4]; exact Nat.le_succ _
    · rw [h4]; exact length_Add_le mr _

/-- C13 at the failing input: with both expressions present expressionEquals never
forces them; its outcome is what the library does on two zero values, whatever
the expressions evaluate to (or false when only `a` is an object constructor).
For the literals "x" and "y" attributeEquals answers false and for "x" and "x"
it answers true, while expressionEquals gives one and the same outcome `r` for
both pairs, whichever answer `r` the library gives on zero values. -/
theorem expressionEquals_present_operands {V : Type} (c : Cty V) (ob : Bool)
    (va vb : V × Diagnostics) (r : Option Bool) :
    expressionEquals c (some ⟨false, va⟩) (some ⟨ob, vb⟩) = c.onNilVal ∧
    expressionEquals c (some ⟨true, va⟩) (some ⟨true, vb⟩) = c.onNilVal ∧
    expressionEquals c (some ⟨true, va⟩) (some ⟨false, vb⟩) = some false ∧
    expressionEquals (sampleCtyWith r) (some (litStr "x")) (some (litStr "y")) = r ∧
    expressionEquals (sampleCtyWith r) (some (litStr "x")) (some (litStr "x")) = r ∧
    attributeEquals (sampleCtyWith r) (some ⟨"n", litStr "x"⟩) (some ⟨"n", litStr "y"⟩) = false ∧
    attributeEquals (sampleCtyWith r) (some ⟨"n", litStr "x"⟩) (some ⟨"n", litStr "x"⟩) = true := by
  refine ⟨?_, ?_, ?_, ?_, ?_, ?_, ?_⟩
  · simp [expressionEquals, isObjectConsExpr]
  · simp [expressionEquals, isObjectConsExpr]
  · simp [expressionEquals, isObjectConsExpr]
  · simp [expressionEquals, isObjectConsExpr, litStr, sampleCtyWith]
  · simp [expressionEquals, isObjectConsExpr, litStr, sampleCtyWith]
  · rw [attributeEquals_present]
    simp [sampleCtyWith, sampleCty, litStr]
  · rw [attributeEquals_present]
    simp [sampleCtyWith, sampleCty, litStr]

/-- C14: descent with extended path. For blocks of equal type and equal labels
computeBlockDiff is exactly computeBodyDiff on the two nested bodies, started
from the unchanged report, under the path extended by the segment of the
original block: its type when it has no labels, its type followed by its
dot-joined labels otherwise. -/
theorem computeBlockDiff_descends {V : Type} (c : Cty V) (mr : ModifiedResources)
    (o m : Block V) (path : List String) (ht : o.type = m.type) (hl : o.Labels = m.Labels) :
    computeBlockDiff c mr o m path =
      computeBodyDiff c mr o.GetBody m.GetBody (path ++ [pChunk o]) ∧
    pChunk o = (if o.Labels = [] then o.type else o.type ++ "." ++ strings.Join o.Labels ".") := by
  refine ⟨?_, pChunk_eq o⟩
  rw [computeBlockDiff_type_eq c mr o m path ht, computeLabelsDiff_labels_eq mr o m _ hl]

/-- C14 at two `resource "aws_instance" "web"` blocks whose bodies hold blocks of
different types: the path recorded by the body comparison starts with the
extended path. -/
theorem computeBlockDiff_descends_witness :
    computeBlockDiff sampleCty NewModifiedResources
      (Block.mk "resource" ["aws_instance", "web"] lifecycleBody)
      (Block.mk "resource" ["aws_instance", "web"] provisionerBody) ["module.m"] =
      computeBodyDiff sampleCty NewModifiedResources lifecycleBody provisionerBody
        ["module.m", "resource.aws_instance.web"] ∧
    computeBodyDiff sampleCty NewModifiedResources lifecycleBody provisionerBody
        ["module.m", "resource.aws_instance.web"] =
      some (false, ⟨["module.m/resource.aws_instance.web/lifecycle"]⟩) :=
  ⟨(computeBlockDiff_descends sampleCty NewModifiedResources
      (Block.mk "resource" ["aws_instance", "web"] lifecycleBody)
      (Block.mk "resource" ["aws_instance", "web"] provisionerBody) ["module.m"] rfl rfl).1,
   by decide⟩

/-- C15 at the failing input: the attributes `x = "v"` and `y = "v"` have different
names, and attributeEquals returns true; in general the verdict for two present
attributes is the one for the same expressions under equal names. -/
theorem attributeEquals_name_mismatch_ignored {V : Type} (c : Cty V) (na nb : String)
    (ea eb : Expression V) :
    attributeEquals c (some ⟨na, ea⟩) (some ⟨nb, eb⟩) =
      attributeEquals c (some ⟨na, ea⟩) (some ⟨na, eb⟩) ∧
    (Attribute.mk "x" (litStr "v")).Name ≠ (Attribute.mk "y" (litStr "v")).Name ∧
    attributeEquals sampleCty (some ⟨"x", litStr "v"⟩) (some ⟨"y", litStr "v"⟩) = true := by
  refine ⟨?_, by decide, by decide⟩
  rw [attributeEquals_present, attributeEquals_present]

/-- C16: computeLabelsDiff decides list equality. Every call returns (no index
into the labels of `m` is out of range); the result is true exactly when the
two label lists have the same length and the same string at every index; and
when the result is true the report is the one before the call. -/
theorem computeLabelsDiff_decides_equality {V : Type} (mr : ModifiedResources) (o m : Block V)
    (path : List String) :
    ∃ (r : Bool) (mr1 : ModifiedResources),
      computeLabelsDiff mr o m path = some (r, mr1) ∧
      (r = true ↔
        (o.Labels.length = m.Labels.length ∧
          ∀ i, i < o.Labels.length → o.Labels[i]? = m.Labels[i]?)) ∧
      (r = true → mr1 = mr) := by
  obtain ⟨r, mr1, h1, h2, h3, _⟩ := computeLabelsDiff_spec mr o m path
  refine ⟨r, mr1, h1, ?_, h3⟩
  rw [h2]
  constructor
  · intro he
    rw [he]
    exact ⟨rfl, fun _ _ => rfl⟩
  · rintro ⟨hlen, hidx⟩
    apply List.ext_getElem?
    intro i
    by_cases hi : i < o.Labels.length
    · exact hidx i hi
    · have h1 : o.Labels.length ≤ i := Nat.le_of_not_lt hi
      have h2 : m.Labels.length ≤ i := hlen ▸ h1
      rw [List.getElem?_eq_none h1, List.getElem?_eq_none h2]

end hclparser
